import Mathlib

/-!
Verification of the structural-extraction and diagram pipeline in `src/main.py`
(legacy-code-refactor-ai). The tree-sitter parser, the LLM collaborator and the
graphviz rendering executable are external; the code under verification is the
capture-processing loops of `CodeAnalyzer.analyze`, the graph-description
construction of `ArchitectureVisualizer.generate_from_structure`, the JSON
handling of `RefactorSuggester.suggest`, and the exception flow of
`ArchitectureVisualizer.generate_from_dot_string` / `_render_graph` and `main`.
-/

namespace LegacyRefactor

/-- Capture returned by a tree-sitter query: the decoded text of the matched
node (`node.text.decode("utf8")` in the source) and the capture tag
(`"function.name"`, `"function.call"`, `"method.name"`, `"call"`). -/
structure Capture where
  text : String
  tag : String
deriving DecidableEq

/-- Entry of the `functions` mapping: the dict `{"calls": [...]}` built by
`CodeAnalyzer.analyze`. -/
structure FunctionEntry where
  calls : List String
deriving DecidableEq

/-- The `functions` dict of `analyze`, modelled as an insertion-ordered
association list (Python dicts preserve insertion order). -/
abbrev FuncMap := List (String × FunctionEntry)

/-- Membership test `k in d` on the functions dict. -/
def dictContains (d : FuncMap) (k : String) : Bool :=
  d.any (fun p => p.1 = k)

/-- Assignment `d[k] = v` on the functions dict: an existing key keeps its
position and has its value replaced; a new key is appended. -/
def dictSet (d : FuncMap) (k : String) (v : FunctionEntry) : FuncMap :=
  if dictContains d k then
    d.map (fun p => if p.1 = k then (p.1, v) else p)
  else
    d ++ [(k, v)]

/-- The statement `d[k]["calls"].append(callName)` of `analyze` (line 88):
the entry of key `k` gets `callName` appended to its calls list. -/
def appendCall (d : FuncMap) (k : String) (callName : String) : FuncMap :=
  d.map (fun p => if p.1 = k then (p.1, ⟨p.2.calls ++ [callName]⟩) else p)

/-- The structure dict built by `analyze` (lines 51-55):
`{"functions": {}, "classes": {}, "global_calls": []}`. No code path ever
populates `classes` or `global_calls`. -/
structure CodeStructure where
  functions : FuncMap
  classes : List (String × Unit)
  global_calls : List String
deriving DecidableEq

/-- One iteration of the definition-query loop (lines 60-63): a capture tagged
`function.name` registers `{"calls": []}` under the captured text. -/
def defLoopStep (fns : FuncMap) (c : Capture) : FuncMap :=
  if c.tag = "function.name" then dictSet fns c.text ⟨[]⟩ else fns

/-- The whole definition-query loop of `analyze` run on the ordered capture
sequence of the function-definition query. -/
def processDefCaptures (caps : List Capture) : FuncMap :=
  caps.foldl defLoopStep []

/-- One iteration of the call-query loop (lines 82-88). State is the functions
dict plus `current_func` (`none` models Python `None`; the guard
`and current_func` is also false for the empty string, hence the `f ≠ ""`
test). A callee capture is appended only when `current_func` is truthy and is
a key of the functions dict. -/
def callLoopStep (st : FuncMap × Option String) (c : Capture) :
    FuncMap × Option String :=
  if c.tag = "function.name" then
    (st.1, some c.text)
  else if c.tag = "function.call" ∨ c.tag = "method.name" then
    match st.2 with
    | some f =>
        if f ≠ "" then
          if dictContains st.1 f then (appendCall st.1 f c.text, some f) else st
        else st
    | none => st
  else st

/-- The capture-processing core of `analyze` (lines 51-90): the definition
loop followed by the call loop with `current_func = None` initially, assembled
into the returned structure. `classes` and `global_calls` are returned exactly
as initialised. -/
def buildStructure (defCaps callCaps : List Capture) : CodeStructure :=
  { functions := (callCaps.foldl callLoopStep (processDefCaptures defCaps, none)).1
    classes := []
    global_calls := [] }

/-- Outcome of `open(file_path).read()` in `analyze`: success, the
`FileNotFoundError` that the `except` clause names, or any other read failure
(permission denied, directory, undecodable bytes), which no clause catches. -/
inductive ReadResult
  | ok (code : String)
  | fileNotFound
  | otherError
deriving DecidableEq

/-- Result of a call to `analyze`: a normal `return` (with `None` on
`FileNotFoundError`) or an exception propagating out of the method. -/
inductive AnalyzeResult
  | returned (s : Option CodeStructure)
  | raised
deriving DecidableEq

/-- Method `CodeAnalyzer.analyze` (lines 40-90). Parsing plus the two
tree-sitter queries are external; `queries` maps the file content to the
ordered capture sequences the two queries return. Only `FileNotFoundError`
is caught (lines 45-47); any other read error propagates before parsing. -/
def analyze (r : ReadResult) (queries : String → List Capture × List Capture) :
    AnalyzeResult :=
  match r with
  | .fileNotFound => .returned none
  | .otherError => .raised
  | .ok code => .returned (some (buildStructure (queries code).1 (queries code).2))

/-- How far `main` (lines 214-259) gets through its analysis phase. The
`if not code_structure: return` test (lines 222-223) runs before the output
directory is created or any diagram or suggestion is produced; the returned
dict always holds three keys, so it is truthy whenever it is not `None`. -/
inductive MainPhase
  | abortedNoOutput
  | raisedNoOutput
  | proceeded (s : CodeStructure)
deriving DecidableEq

/-- The analysis phase of `main`: call `analyze`, abort on a falsy result,
otherwise continue with the structure. An exception from `analyze` propagates
out of `main`, which has no handler. -/
def mainAnalyzePhase (r : ReadResult)
    (queries : String → List Capture × List Capture) : MainPhase :=
  match analyze r queries with
  | .raised => .raisedNoOutput
  | .returned none => .abortedNoOutput
  | .returned (some s) => .proceeded s

/-- One line of the `body` list of a graphviz `Digraph`: `Digraph.attr`,
`Digraph.node` and `Digraph.edge` each append one statement line to `body`. -/
inductive DotStmt
  | attrStmt (kw : Option String) (attrs : List (String × String))
  | nodeStmt (name label : String)
  | edgeStmt (tail head : String)
deriving DecidableEq

/-- The two `dot.attr` calls of `generate_from_structure` (lines 184-185);
both append a line to `dot.body` before any node or edge is added. -/
def initBody : List DotStmt :=
  [ .attrStmt (some "node") [("shape", "box"), ("style", "rounded")],
    .attrStmt none [("label", "Original Architecture"), ("labelloc", "t"), ("fontsize", "16")] ]

/-- The `dot.body` list after the nested loops of `generate_from_structure`
(lines 187-192): one node per function, then one edge line per call occurrence
whose callee is a key of the functions mapping. -/
def generate_from_structure_body (s : CodeStructure) : List DotStmt :=
  s.functions.foldl
    (fun body fe =>
      fe.2.calls.foldl
        (fun b call =>
          if dictContains s.functions call then b ++ [DotStmt.edgeStmt fe.1 call] else b)
        (body ++ [DotStmt.nodeStmt fe.1 (fe.1 ++ "()")]))
    initBody

/-- Outcome of `generate_from_structure`: the early `return` of line 196, or a
call to `_render_graph` on the accumulated body. -/
inductive VisOutcome
  | skippedNothingToDraw
  | rendered (body : List DotStmt)
deriving DecidableEq

/-- Method `ArchitectureVisualizer.generate_from_structure` (lines 181-198):
build the body, then `if not dot.body:` print the nothing-to-visualize
message and return, else invoke the renderer. -/
def generate_from_structure (s : CodeStructure) : VisOutcome :=
  let body := generate_from_structure_body s
  if body = [] then .skippedNothingToDraw else .rendered body

/-- Per-function slice of the body built by the loops of
`generate_from_structure`: the node line of the function followed by one edge
line per call occurrence whose callee is a key of the functions mapping. Used
to restate `generate_from_structure_body` as a concatenation in proofs. -/
def funcSegment (fns : FuncMap) (fe : String × FunctionEntry) : List DotStmt :=
  DotStmt.nodeStmt fe.1 (fe.1 ++ "()") ::
    (fe.2.calls.filter (fun call => dictContains fns call)).map (DotStmt.edgeStmt fe.1)

/-- Python value as returned by `json.loads` in `RefactorSuggester.suggest`:
a JSON object becomes a dict, a JSON array a list, and — crucially — the JSON
text `null` parses successfully to the Python value `None` (the constructor
`PyValue.none` here). -/
inductive PyValue
  | dict (fields : List (String × PyValue))
  | list (items : List PyValue)
  | str (s : String)
  | num (n : Int)
  | boolean (b : Bool)
  | none

/-- Outcome of `json.loads` on the cleaned response: a raised
`JSONDecodeError`, or the parsed Python value. -/
inductive ParseOutcome
  | decodeError
  | parsed (v : PyValue)

/-- Field names of a parsed dict, `Option.none` for any other Python value.
Used to state which documents carry exactly the three recognised fields. -/
def dictFieldNames : PyValue → Option (List String)
  | .dict fields => some (fields.map Prod.fst)
  | _ => Option.none

/-- Method `RefactorSuggester.suggest` (lines 138-153), after the LLM call:
`try: return json.loads(clean_response)` with `except json.JSONDecodeError:
... return None`. A successful parse is returned verbatim — the method
performs no check of the fields of the document — and the `None` returned on
a decode error is the same Python value that `json.loads` yields for the
successfully parsed response `null`. -/
def suggest (p : ParseOutcome) : PyValue :=
  match p with
  | .parsed v => v
  | .decodeError => .none

/-- Python truthiness of a `json.loads` result: `None`, the empty dict, the
empty list, the empty string, zero and `False` are falsy. -/
def pyTruthy : PyValue → Bool
  | .dict fields => !fields.isEmpty
  | .list items => !items.isEmpty
  | .str s => !(s == "")
  | .num n => !(n == 0)
  | .boolean b => b
  | .none => false

/-- How `main` handles the result of `suggest` (lines 235-239):
`if not suggestion:` print the could-not-get-a-valid-suggestion message and
return, else continue with the document. -/
inductive SuggestPhase
  | rejectedNoSuggestion
  | proceeded (doc : PyValue)

/-- The suggestion phase of `main`: call `suggest` and discard exactly the
falsy results; any truthy document proceeds to the printing and diagram
steps regardless of its fields. -/
def mainSuggestPhase (p : ParseOutcome) : SuggestPhase :=
  if pyTruthy (suggest p) then .proceeded (suggest p) else .rejectedNoSuggestion

/-- Behaviour of the external `graph.render(...)` call inside
`_render_graph`: success, `graphviz.backend.execute.ExecutableNotFound`, or
any other exception. -/
inductive RenderBehavior
  | success
  | execNotFound
  | raiseOther
deriving DecidableEq

/-- Behaviour of the `graphviz.Source(dot_string)` construction inside
`generate_from_dot_string`: normal, or an exception (an `Exception`
subclass). -/
inductive SourceBehavior
  | ok
  | raiseExc
deriving DecidableEq

/-- Messages printed on the paths of `_render_graph` and
`generate_from_dot_string`. `offendingText` is the echo of the dot string
itself (lines 207-209); `renderErrorMsg` is the generic message of line 179,
which does not echo the dot text. -/
inductive LogLine
  | diagramSaved
  | execNotFoundMsg
  | renderErrorMsg
  | dotErrorMsg
  | offendingText (s : String)
deriving DecidableEq

/-- Whether control leaves a call normally or via a propagating `SystemExit`
(raised by `sys.exit(1)`; `SystemExit` derives from `BaseException`, so an
`except Exception` clause does not catch it). -/
inductive Escape
  | completed
  | systemExit
deriving DecidableEq

/-- Method `ArchitectureVisualizer._render_graph` (lines 165-179): catches
`ExecutableNotFound` and calls `sys.exit(1)` (the `SystemExit` propagates),
and catches every other `Exception`, printing a message without the dot
text. -/
def render_graph_run (rb : RenderBehavior) : List LogLine × Escape :=
  match rb with
  | .success => ([.diagramSaved], .completed)
  | .execNotFound => ([.execNotFoundMsg], .systemExit)
  | .raiseOther => ([.renderErrorMsg], .completed)

/-- Method `ArchitectureVisualizer.generate_from_dot_string` (lines 200-209):
`try: Source(dot_string); _render_graph(...)` with `except Exception`
printing the error and echoing the offending dot string. A `SystemExit`
coming out of `_render_graph` is not an `Exception` and is not intercepted. -/
def generate_from_dot_string (sb : SourceBehavior) (rb : RenderBehavior)
    (dot_string : String) : List LogLine × Escape :=
  match sb with
  | .raiseExc => ([.dotErrorMsg, .offendingText dot_string], .completed)
  | .ok => render_graph_run rb

/-! Helper lemmas about the functions dict. -/

lemma dictContains_iff (d : FuncMap) (k : String) :
    dictContains d k = true ↔ k ∈ d.map Prod.fst := by
  simp [dictContains, List.any_eq_true, List.mem_map]

lemma appendCall_map_fst (d : FuncMap) (k x : String) :
    (appendCall d k x).map Prod.fst = d.map Prod.fst := by
  simp only [appendCall, List.map_map]
  apply List.map_congr_left
  intro p _
  by_cases h : p.1 = k <;> simp [h]

lemma dictSet_map_fst (d : FuncMap) (k : String) (v : FunctionEntry) :
    (dictSet d k v).map Prod.fst
      = if dictContains d k then d.map Prod.fst else d.map Prod.fst ++ [k] := by
  unfold dictSet
  by_cases h : dictContains d k
  · rw [if_pos h, if_pos h]
    simp only [List.map_map]
    apply List.map_congr_left
    intro p _
    by_cases hp : p.1 = k <;> simp [hp]
  · rw [if_neg h, if_neg h]
    simp

lemma mem_dictSet_keys (d : FuncMap) (k : String) (v : FunctionEntry) (m : String) :
    m ∈ (dictSet d k v).map Prod.fst ↔ m ∈ d.map Prod.fst ∨ m = k := by
  rw [dictSet_map_fst]
  by_cases h : dictContains d k
  · rw [if_pos h]
    have hk : k ∈ d.map Prod.fst := (dictContains_iff d k).mp h
    constructor
    · exact fun hm => Or.inl hm
    · rintro (hm | rfl)
      · exact hm
      · exact hk
  · rw [if_neg h]
    simp

lemma nodup_dictSet_keys (d : FuncMap) (k : String) (v : FunctionEntry)
    (h : (d.map Prod.fst).Nodup) : ((dictSet d k v).map Prod.fst).Nodup := by
  rw [dictSet_map_fst]
  by_cases hc : dictContains d k
  · rw [if_pos hc]; exact h
  · rw [if_neg hc]
    have hk : k ∉ d.map Prod.fst := fun hm => hc ((dictContains_iff d k).mpr hm)
    simp [List.nodup_append, h]
    intro a ha
    exact hk (List.mem_map.mpr ⟨(k, a), ha, rfl⟩)

/-! Helper lemmas about the definition-query loop. -/

lemma foldl_defLoop_keys_nodup (caps : List Capture) :
    ∀ fns : FuncMap, (fns.map Prod.fst).Nodup →
      (((caps.foldl defLoopStep fns)).map Prod.fst).Nodup := by
  induction caps with
  | nil => intro fns h; exact h
  | cons c t ih =>
      intro fns h
      rw [List.foldl_cons]
      apply ih
      unfold defLoopStep
      by_cases hc : c.tag = "function.name"
      · rw [if_pos hc]; exact nodup_dictSet_keys _ _ _ h
      · rw [if_neg hc]; exact h

lemma mem_foldl_defLoop_keys (caps : List Capture) :
    ∀ (fns : FuncMap) (m : String),
      m ∈ ((caps.foldl defLoopStep fns)).map Prod.fst ↔
        m ∈ fns.map Prod.fst ∨ ∃ c ∈ caps, c.tag = "function.name" ∧ c.text = m := by
  induction caps with
  | nil => intro fns m; simp
  | cons c t ih =>
      intro fns m
      rw [List.foldl_cons, ih]
      unfold defLoopStep
      by_cases hc : c.tag = "function.name"
      · rw [if_pos hc, mem_dictSet_keys]
        constructor
        · rintro ((hm | rfl) | ⟨c2, hc2, h1, h2⟩)
          · exact Or.inl hm
          · exact Or.inr ⟨c, List.mem_cons_self c t, hc, rfl⟩
          · exact Or.inr ⟨c2, List.mem_cons_of_mem c hc2, h1, h2⟩
        · rintro (hm | ⟨c2, hc2, h1, h2⟩)
          · exact Or.inl (Or.inl hm)
          · rcases List.mem_cons.mp hc2 with rfl | hc2t
            · exact Or.inl (Or.inr h2.symm)
            · exact Or.inr ⟨c2, hc2t, h1, h2⟩
      · rw [if_neg hc]
        constructor
        · rintro (hm | ⟨c2, hc2, h1, h2⟩)
          · exact Or.inl hm
          · exact Or.inr ⟨c2, List.mem_cons_of_mem c hc2, h1, h2⟩
        · rintro (hm | ⟨c2, hc2, h1, h2⟩)
          · exact Or.inl hm
          · rcases List.mem_cons.mp hc2 with rfl | hc2t
            · exact absurd h1 hc
            · exact Or.inr ⟨c2, hc2t, h1, h2⟩

/-! Helper lemmas about the call-query loop. -/

lemma callLoopStep_map_fst (st : FuncMap × Option String) (c : Capture) :
    ((callLoopStep st c).1).map Prod.fst = st.1.map Prod.fst := by
  obtain ⟨fns, cur⟩ := st
  by_cases h1 : c.tag = "function.name"
  · simp [callLoopStep, h1]
  · by_cases h2 : c.tag = "function.call" ∨ c.tag = "method.name"
    · cases cur with
      | none => simp [callLoopStep, h1, h2]
      | some f =>
          by_cases h3 : f = ""
          · simp [callLoopStep, h1, h2, h3]
          · by_cases h4 : dictContains fns f = true
            · simp [callLoopStep, h1, h2, h3, h4, appendCall_map_fst]
            · simp [callLoopStep, h1, h2, h3, h4]
    · simp [callLoopStep, h1, h2]

lemma foldl_callLoop_map_fst (caps : List Capture) :
    ∀ st : FuncMap × Option String,
      (((caps.foldl callLoopStep st)).1).map Prod.fst = st.1.map Prod.fst := by
  induction caps with
  | nil => intro st; rfl
  | cons c t ih =>
      intro st
      rw [List.foldl_cons, ih, callLoopStep_map_fst]

lemma callLoopStep_callee_append (fns : FuncMap) (g : String) (c : Capture)
    (h1 : c.tag ≠ "function.name")
    (h2 : c.tag = "function.call" ∨ c.tag = "method.name")
    (h3 : g ≠ "") (h4 : dictContains fns g = true) :
    callLoopStep (fns, some g) c = (appendCall fns g c.text, some g) := by
  simp [callLoopStep, h1, h2, h3, h4]

lemma mem_appendCall_eq (d : FuncMap) (g x : String) (e : FunctionEntry)
    (h : (g, e) ∈ d) :
    (g, FunctionEntry.mk (e.calls ++ [x])) ∈ appendCall d g x := by
  unfold appendCall
  have hm := List.mem_map_of_mem
    (fun p : String × FunctionEntry =>
      if p.1 = g then (p.1, FunctionEntry.mk (p.2.calls ++ [x])) else p) h
  simpa using hm

lemma mem_appendCall_ne (d : FuncMap) (g x f : String) (e : FunctionEntry)
    (h : (f, e) ∈ d) (hne : f ≠ g) : (f, e) ∈ appendCall d g x := by
  unfold appendCall
  have hm := List.mem_map_of_mem
    (fun p : String × FunctionEntry =>
      if p.1 = g then (p.1, FunctionEntry.mk (p.2.calls ++ [x])) else p) h
  simpa [hne] using hm

lemma callLoopStep_calls_grow (st : FuncMap × Option String) (c : Capture)
    (f : String) (e : FunctionEntry) (h : (f, e) ∈ st.1) :
    ∃ t, (f, FunctionEntry.mk (e.calls ++ t)) ∈ (callLoopStep st c).1 := by
  obtain ⟨fns, cur⟩ := st
  by_cases h1 : c.tag = "function.name"
  · exact ⟨[], by simpa [callLoopStep, h1] using h⟩
  · by_cases h2 : c.tag = "function.call" ∨ c.tag = "method.name"
    · cases cur with
      | none => exact ⟨[], by simpa [callLoopStep, h1, h2] using h⟩
      | some g =>
          by_cases h3 : g = ""
          · exact ⟨[], by simpa [callLoopStep, h1, h2, h3] using h⟩
          · by_cases h4 : dictContains fns g = true
            · by_cases h5 : f = g
              · subst h5
                refine ⟨[c.text], ?_⟩
                rw [callLoopStep_callee_append fns f c h1 h2 h3 h4]
                exact mem_appendCall_eq fns f c.text e h
              · refine ⟨[], ?_⟩
                rw [callLoopStep_callee_append fns g c h1 h2 h3 h4]
                simpa using mem_appendCall_ne fns g c.text f e h h5
            · exact ⟨[], by simpa [callLoopStep, h1, h2, h3, h4] using h⟩
    · exact ⟨[], by simpa [callLoopStep, h1, h2] using h⟩

lemma foldl_callLoop_calls_grow (caps : List Capture) :
    ∀ (st : FuncMap × Option String) (f : String) (e : FunctionEntry),
      (f, e) ∈ st.1 →
      ∃ t, (f, FunctionEntry.mk (e.calls ++ t)) ∈ ((caps.foldl callLoopStep st)).1 := by
  induction caps with
  | nil => intro st f e h; exact ⟨[], by simpa using h⟩
  | cons c tl ih =>
      intro st f e h
      obtain ⟨t1, h1⟩ := callLoopStep_calls_grow st c f e h
      obtain ⟨t2, h2⟩ := ih (callLoopStep st c) f (FunctionEntry.mk (e.calls ++ t1)) h1
      rw [List.foldl_cons]
      exact ⟨t1 ++ t2, by simpa [List.append_assoc] using h2⟩

/-! Helper lemmas restating the diagram body as a concatenation. -/

lemma inner_edge_foldl_eq (fns : FuncMap) (f : String) (calls : List String)
    (b : List DotStmt) :
    calls.foldl
        (fun b2 call =>
          if dictContains fns call then b2 ++ [DotStmt.edgeStmt f call] else b2) b
      = b ++ (calls.filter (fun call => dictContains fns call)).map (DotStmt.edgeStmt f) := by
  induction calls generalizing b with
  | nil => simp
  | cons c t ih =>
      by_cases h : dictContains fns c = true
      · rw [List.foldl_cons, if_pos h, ih]
        simp [List.filter_cons, h, List.append_assoc]
      · rw [List.foldl_cons, if_neg h, ih]
        simp [List.filter_cons, h]

lemma outer_body_foldl_eq (fns : FuncMap) (l : List (String × FunctionEntry)) :
    ∀ b : List DotStmt,
      l.foldl
          (fun body fe =>
            fe.2.calls.foldl
              (fun b2 call =>
                if dictContains fns call then b2 ++ [DotStmt.edgeStmt fe.1 call] else b2)
              (body ++ [DotStmt.nodeStmt fe.1 (fe.1 ++ "()")])) b
        = b ++ l.flatMap (funcSegment fns) := by
  induction l with
  | nil => intro b; simp
  | cons fe t ih =>
      intro b
      rw [List.foldl_cons, inner_edge_foldl_eq, ih]
      simp [funcSegment, List.flatMap_cons, List.append_assoc]

lemma generate_body_eq (s : CodeStructure) :
    generate_from_structure_body s
      = initBody ++ s.functions.flatMap (funcSegment s.functions) := by
  unfold generate_from_structure_body
  exact outer_body_foldl_eq s.functions s.functions initBody

lemma edge_not_mem_initBody (f c : String) : DotStmt.edgeStmt f c ∉ initBody := by
  simp [initBody]

lemma edge_mem_funcSegment (fns : FuncMap) (fe : String × FunctionEntry)
    (f c : String) :
    DotStmt.edgeStmt f c ∈ funcSegment fns fe ↔
      fe.1 = f ∧ c ∈ fe.2.calls ∧ dictContains fns c = true := by
  simp only [funcSegment, List.mem_cons, List.mem_map, List.mem_filter]
  constructor
  · rintro (h | ⟨a, ⟨ha, hc⟩, heq⟩)
    · exact absurd h (by simp)
    · obtain ⟨h1, h2⟩ := DotStmt.edgeStmt.inj heq
      exact ⟨h1, h2 ▸ ha, h2 ▸ hc⟩
  · rintro ⟨h1, h2, h3⟩
    exact Or.inr ⟨c, ⟨h2, h3⟩, by rw [h1]⟩

/-! Helper lemmas for counting edge statements. -/

lemma count_flatMap (e : DotStmt) (g : String × FunctionEntry → List DotStmt) :
    ∀ l : List (String × FunctionEntry),
      List.count e (l.flatMap g) = (l.map (fun x => List.count e (g x))).sum := by
  intro l
  induction l with
  | nil => simp
  | cons fe t ih => simp [List.flatMap_cons, List.count_append, ih]

lemma edgeStmt_left_injective (a : String) :
    Function.Injective (DotStmt.edgeStmt a) := by
  intro x y hxy
  exact (DotStmt.edgeStmt.inj hxy).2

lemma count_edge_funcSegment_eq (fns : FuncMap) (fe : String × FunctionEntry)
    (B : String) (hB : dictContains fns B = true) :
    List.count (DotStmt.edgeStmt fe.1 B) (funcSegment fns fe) = fe.2.calls.count B := by
  unfold funcSegment
  rw [List.count_cons,
    List.count_map_of_injective _ _ (edgeStmt_left_injective fe.1),
    List.count_filter hB]
  simp [beq_iff_eq]

lemma count_edge_funcSegment_ne (fns : FuncMap) (fe : String × FunctionEntry)
    (A B : String) (hne : fe.1 ≠ A) :
    List.count (DotStmt.edgeStmt A B) (funcSegment fns fe) = 0 := by
  apply List.count_eq_zero_of_not_mem
  rw [edge_mem_funcSegment]
  rintro ⟨h1, -, -⟩
  exact hne h1

lemma sum_map_eq_single (l : FuncMap) (A : String) (entry : FunctionEntry)
    (F : String × FunctionEntry → Nat) :
    (l.map Prod.fst).Nodup → (A, entry) ∈ l →
    (∀ fe : String × FunctionEntry, fe.1 ≠ A → F fe = 0) →
    (l.map F).sum = F (A, entry) := by
  induction l with
  | nil => intro _ h _; exact absurd h (List.not_mem_nil _)
  | cons fe t ih =>
      intro hnd h h0
      rw [List.map_cons] at hnd
      obtain ⟨hfe, hndt⟩ := List.nodup_cons.mp hnd
      rcases List.mem_cons.mp h with rfl | ht
      · have hz : ((t.map F)).sum = 0 := by
          apply List.sum_eq_zero
          intro x hx
          obtain ⟨fe2, hfe2, rfl⟩ := List.mem_map.mp hx
          apply h0
          intro hA
          exact hfe (hA ▸ List.mem_map.mpr ⟨fe2, hfe2, rfl⟩)
        simp [hz]
      · have hA : A ∈ t.map Prod.fst := List.mem_map.mpr ⟨(A, entry), ht, rfl⟩
        have hfeA : fe.1 ≠ A := fun hEq => hfe (hEq ▸ hA)
        simp [h0 fe hfeA, ih hndt ht h0]

/-! Claim theorems. -/

/-- C1, counterexample: a capture sequence whose single callee-name capture
occurs before any function-name capture. The claim says `analyze` records the
name `foo` in `global_calls`; the code leaves `global_calls` empty and drops
the name entirely. -/
theorem C1_counterexample :
    buildStructure [] [⟨"foo", "function.call"⟩] = ⟨[], [], []⟩ ∧
    "foo" ∉ (buildStructure [] [⟨"foo", "function.call"⟩]).global_calls := by
  refine ⟨by decide, ?_⟩
  simp [buildStructure]

/-- C1, amended: callee-name captures that occur while `current_func` is
still `None` are skipped by the guard `and current_func` of line 85, and the
`global_calls` list of the structure returned by `analyze` is always the
empty list initialised at line 54 — module-level calls are dropped, not
accumulated. -/
theorem C1_global_calls_always_empty :
    (∀ defCaps callCaps : List Capture,
      (buildStructure defCaps callCaps).global_calls = []) ∧
    (∀ (fns : FuncMap) (c : Capture),
      c.tag = "function.call" ∨ c.tag = "method.name" →
      callLoopStep (fns, none) c = (fns, none)) := by
  constructor
  · intro defCaps callCaps; rfl
  · intro fns c h
    have h1 : c.tag ≠ "function.name" := by
      rcases h with h | h <;> simp [h]
    unfold callLoopStep
    rw [if_neg h1]
    split <;> rfl

/-- C1, witness for the amended theorem at concrete inputs. -/
theorem C1_witness :
    (buildStructure [] [⟨"bar", "method.name"⟩]).global_calls = [] ∧
    callLoopStep ([], none) ⟨"bar", "method.name"⟩ = ([], none) :=
  ⟨C1_global_calls_always_empty.1 [] [⟨"bar", "method.name"⟩],
   C1_global_calls_always_empty.2 [] ⟨"bar", "method.name"⟩ (Or.inr rfl)⟩

/-- C2, code bug: for the empty functions mapping the loops emit no node and
no edge, but `dot.body` already holds the two lines appended by the
`dot.attr` calls of lines 184-185, so the guard `if not dot.body` of line 194
does not fire: the nothing-to-visualize message is never printed and
`_render_graph` is invoked anyway, contradicting the early-return intent of
lines 194-196. -/
theorem C2_empty_functions_still_renders :
    generate_from_structure ⟨[], [], []⟩ = VisOutcome.rendered initBody ∧
    (∀ n l : String, DotStmt.nodeStmt n l ∉ initBody) ∧
    (∀ a b : String, DotStmt.edgeStmt a b ∉ initBody) := by
  refine ⟨by decide, ?_, ?_⟩ <;> intro x y <;> simp [initBody]

/-- C3: an edge statement from `f` to `c` appears in the body built by
`generate_from_structure` if and only if some entry of the functions mapping
has key `f` with `c` among its calls and `c` is itself a key of the functions
mapping (the guard of line 191). Conjoined: the concrete scenario of a
function `a` calling the undefined name `foo` — `analyze` still records
`foo` in the calls list of `a`, while the generated body holds only the node
of `a` and no edge. -/
theorem C3_edge_iff_callee_defined :
    (∀ (s : CodeStructure) (f c : String),
      DotStmt.edgeStmt f c ∈ generate_from_structure_body s ↔
        ∃ e : FunctionEntry,
          (f, e) ∈ s.functions ∧ c ∈ e.calls ∧ dictContains s.functions c = true) ∧
    buildStructure [⟨"a", "function.name"⟩]
        [⟨"a", "function.name"⟩, ⟨"foo", "function.call"⟩]
      = ⟨[("a", ⟨["foo"]⟩)], [], []⟩ ∧
    generate_from_structure_body ⟨[("a", ⟨["foo"]⟩)], [], []⟩
      = initBody ++ [DotStmt.nodeStmt "a" "a()"] := by
  refine ⟨?_, by decide, by decide⟩
  intro s f c
  rw [generate_body_eq]
  simp only [List.mem_append, List.mem_flatMap]
  constructor
  · rintro (h | ⟨fe, hfe, hmem⟩)
    · exact absurd h (edge_not_mem_initBody f c)
    · rw [edge_mem_funcSegment] at hmem
      obtain ⟨h1, h2, h3⟩ := hmem
      refine ⟨fe.2, ?_, h2, h3⟩
      have : fe = (f, fe.2) := by
        cases fe
        simp at h1 ⊢
        exact h1
      exact this ▸ hfe
  · rintro ⟨e, he, hc, hcont⟩
    refine Or.inr ⟨(f, e), he, ?_⟩
    rw [edge_mem_funcSegment]
    exact ⟨rfl, hc, hcont⟩

/-- C4, counterexample: function `A` calls defined function `B` twice; the
generated body holds two `A -> B` edge statements, not exactly one. The
conjuncts record that the counterexample satisfies the premises of the claim:
both names are keys of the mapping and `B` occurs in the calls of `A`. -/
theorem C4_counterexample :
    List.count (DotStmt.edgeStmt "A" "B")
        (generate_from_structure_body ⟨[("A", ⟨["B", "B"]⟩), ("B", ⟨[]⟩)], [], []⟩) = 2 ∧
    dictContains [("A", ⟨["B", "B"]⟩), ("B", ⟨[]⟩)] "B" = true ∧
    "B" ∈ (FunctionEntry.mk ["B", "B"]).calls := by
  refine ⟨by decide, by decide, by decide⟩

/-- C4, amended: the body built by `generate_from_structure` contains one
`A -> B` edge statement per occurrence of `B` in the calls list of `A`
(when `B` is a key of the functions mapping and keys are distinct, as
`analyze` guarantees); repeated calls are not de-duplicated in the emitted
graph description, so the count equals the number of recorded calls, which
is one exactly when `A` calls `B` once. -/
theorem C4_edge_count_equals_call_count :
    ∀ (s : CodeStructure) (A B : String) (entry : FunctionEntry),
      (s.functions.map Prod.fst).Nodup →
      (A, entry) ∈ s.functions →
      dictContains s.functions B = true →
      List.count (DotStmt.edgeStmt A B) (generate_from_structure_body s)
        = entry.calls.count B := by
  intro s A B entry hnd hA hB
  rw [generate_body_eq, List.count_append,
    List.count_eq_zero_of_not_mem (edge_not_mem_initBody A B),
    count_flatMap (DotStmt.edgeStmt A B) (funcSegment s.functions) s.functions,
    sum_map_eq_single s.functions A entry
      (fun fe => List.count (DotStmt.edgeStmt A B) (funcSegment s.functions fe))
      hnd hA
      (fun fe hne => count_edge_funcSegment_ne s.functions fe A B hne)]
  have := count_edge_funcSegment_eq s.functions (A, entry) B hB
  simpa using this

/-- C4, witness: the amended count theorem applied at the double-call
structure, where the edge count is the call count 2. -/
theorem C4_witness :
    List.count (DotStmt.edgeStmt "A" "B")
        (generate_from_structure_body ⟨[("A", ⟨["B", "B"]⟩), ("B", ⟨[]⟩)], [], []⟩)
      = List.count "B" ["B", "B"] :=
  C4_edge_count_equals_call_count ⟨[("A", ⟨["B", "B"]⟩), ("B", ⟨[]⟩)], [], []⟩
    "A" "B" ⟨["B", "B"]⟩ (by decide) (by decide) (by decide)

/-- C5, counterexample: the capture sequences of a file holding
`def f(): a()` followed by `def f(): b()`. The definition loop runs in full
before the call loop, so the overwrite of line 63 happens while both calls
lists are still empty; the call loop then appends the calls of both bodies to
the single entry. The earlier call `a` is retained next to `b`, not
discarded as the claim states. -/
theorem C5_counterexample :
    buildStructure
        [⟨"f", "function.name"⟩, ⟨"f", "function.name"⟩]
        [⟨"f", "function.name"⟩, ⟨"a", "function.call"⟩,
         ⟨"f", "function.name"⟩, ⟨"b", "function.call"⟩]
      = ⟨[("f", ⟨["a", "b"]⟩)], [], []⟩ ∧
    (∃ e : FunctionEntry,
      ("f", e) ∈ (buildStructure
        [⟨"f", "function.name"⟩, ⟨"f", "function.name"⟩]
        [⟨"f", "function.name"⟩, ⟨"a", "function.call"⟩,
         ⟨"f", "function.name"⟩, ⟨"b", "function.call"⟩]).functions ∧
      "a" ∈ e.calls ∧ "b" ∈ e.calls) := by
  refine ⟨by decide, ⟨⟨["a", "b"]⟩, by decide, by decide, by decide⟩⟩

/-- C5, amended: two same-named definitions share a single entry of the
functions mapping (the definition loop keeps keys distinct), and the call
loop only ever appends to a calls list — calls recorded for any entry are
preserved as a prefix by the rest of the loop, so the calls of the earlier
same-named definition are merged with the later ones, never discarded. -/
theorem C5_duplicate_names_merge_calls :
    (∀ defCaps : List Capture, ((processDefCaptures defCaps).map Prod.fst).Nodup) ∧
    (∀ (caps : List Capture) (st : FuncMap × Option String)
        (f : String) (e : FunctionEntry),
      (f, e) ∈ st.1 →
      ∃ t, (f, FunctionEntry.mk (e.calls ++ t)) ∈ ((caps.foldl callLoopStep st)).1) := by
  constructor
  · intro defCaps
    exact foldl_defLoop_keys_nodup defCaps [] (by simp)
  · exact foldl_callLoop_calls_grow

/-- C5, witness: the amended theorem applied at a concrete state holding the
entry `("f", calls ["a"])`; the recorded call `a` survives processing of a
further callee capture. -/
theorem C5_witness :
    ((processDefCaptures [⟨"f", "function.name"⟩]).map Prod.fst).Nodup ∧
    ∃ t, ("f", FunctionEntry.mk (["a"] ++ t)) ∈
      (([⟨"b", "function.call"⟩] : List Capture).foldl callLoopStep
        ([("f", ⟨["a"]⟩)], some "f")).1 :=
  ⟨C5_duplicate_names_merge_calls.1 [⟨"f", "function.name"⟩],
   C5_duplicate_names_merge_calls.2 [⟨"b", "function.call"⟩]
     ([("f", ⟨["a"]⟩)], some "f") "f" ⟨["a"]⟩ (by decide)⟩

/-- C6, counterexample: a readable-check failure other than
`FileNotFoundError` (for example permission denied). The `except` clause of
lines 45-47 names only `FileNotFoundError`, so `analyze` does not return
`None`: the exception propagates. -/
theorem C6_counterexample :
    analyze ReadResult.otherError (fun _ => ([], [])) = AnalyzeResult.raised ∧
    analyze ReadResult.otherError (fun _ => ([], [])) ≠ AnalyzeResult.returned none := by
  exact ⟨rfl, by simp [analyze]⟩

/-- C6, amended: for a missing path `analyze` returns `None` before parsing
and `main` returns at line 223 before creating any artifact; for an
existing-but-unreadable path the read exception propagates uncaught out of
`analyze` and `main` (still before parsing, with no output produced), rather
than being turned into a `None` return. -/
theorem C6_missing_vs_unreadable :
    ∀ queries : String → List Capture × List Capture,
      analyze ReadResult.fileNotFound queries = AnalyzeResult.returned none ∧
      mainAnalyzePhase ReadResult.fileNotFound queries = MainPhase.abortedNoOutput ∧
      analyze ReadResult.otherError queries = AnalyzeResult.raised ∧
      mainAnalyzePhase ReadResult.otherError queries = MainPhase.raisedNoOutput := by
  intro queries
  exact ⟨rfl, rfl, rfl, rfl⟩

/-- C7, counterexample: a collaborator response that parses as the JSON
object with the single field `foo` — not the three recognised fields.
`suggest` returns the document verbatim rather than a failure (lines 143-153
validate only that the response is JSON, never its fields), and `main`
propagates the truthy malformed document to the downstream printing and
diagram steps. -/
theorem C7_counterexample :
    suggest (ParseOutcome.parsed (PyValue.dict [("foo", PyValue.num 1)]))
      = PyValue.dict [("foo", PyValue.num 1)] ∧
    suggest (ParseOutcome.parsed (PyValue.dict [("foo", PyValue.num 1)]))
      ≠ PyValue.none ∧
    mainSuggestPhase (ParseOutcome.parsed (PyValue.dict [("foo", PyValue.num 1)]))
      = SuggestPhase.proceeded (PyValue.dict [("foo", PyValue.num 1)]) ∧
    dictFieldNames (PyValue.dict [("foo", PyValue.num 1)]) = some ["foo"] := by
  refine ⟨rfl, ?_, rfl, rfl⟩
  intro h
  exact PyValue.noConfusion h

/-- C7, amended: `suggest` performs no validation of the three-field
contract — every successfully parsed document is returned verbatim, whatever
its fields. Its `None` return marks a JSON decode failure or the successfully
parsed response `null` (for which `json.loads` returns Python `None`), the
two being indistinguishable to the caller; `main` then discards exactly the
falsy results via `if not suggestion:` and proceeds with any truthy
document, malformed or not. -/
theorem C7_no_schema_validation :
    (∀ v : PyValue, suggest (ParseOutcome.parsed v) = v) ∧
    suggest ParseOutcome.decodeError = PyValue.none ∧
    suggest (ParseOutcome.parsed PyValue.none) = PyValue.none ∧
    (∀ p : ParseOutcome,
      mainSuggestPhase p = SuggestPhase.rejectedNoSuggestion ↔
        pyTruthy (suggest p) = false) ∧
    (∀ p : ParseOutcome,
      pyTruthy (suggest p) = true →
        mainSuggestPhase p = SuggestPhase.proceeded (suggest p)) := by
  refine ⟨fun v => rfl, rfl, rfl, ?_, ?_⟩
  · intro p
    unfold mainSuggestPhase
    cases h : pyTruthy (suggest p)
    · simp [h]
    · simp [h]
  · intro p h
    unfold mainSuggestPhase
    rw [if_pos h]

/-- C7, witness: the amended theorem applied at a parsed truthy document,
which proceeds past the guard of `main`. -/
theorem C7_witness :
    mainSuggestPhase (ParseOutcome.parsed (PyValue.dict [("x", PyValue.str "y")]))
      = SuggestPhase.proceeded (PyValue.dict [("x", PyValue.str "y")]) :=
  C7_no_schema_validation.2.2.2.2
    (ParseOutcome.parsed (PyValue.dict [("x", PyValue.str "y")])) rfl

/-- C8: extraction is deterministic — `analyze` and its capture-processing
core are functions of their input, so two runs on identical input yield
identical CodeStructure values, including the ordering of function entries
and calls lists (equality of the full structures). -/
theorem C8_extraction_deterministic :
    ∀ (d1 c1 d2 c2 : List Capture) (r1 r2 : ReadResult)
      (q1 q2 : String → List Capture × List Capture),
      d1 = d2 → c1 = c2 → r1 = r2 → q1 = q2 →
      buildStructure d1 c1 = buildStructure d2 c2 ∧ analyze r1 q1 = analyze r2 q2 := by
  intro d1 c1 d2 c2 r1 r2 q1 q2 h1 h2 h3 h4
  subst h1; subst h2; subst h3; subst h4
  exact ⟨rfl, rfl⟩

/-- C8, witness: determinism applied at a concrete input. -/
theorem C8_witness :
    buildStructure [⟨"a", "function.name"⟩] []
      = buildStructure [⟨"a", "function.name"⟩] [] ∧
    analyze ReadResult.fileNotFound (fun _ => ([], []))
      = analyze ReadResult.fileNotFound (fun _ => ([], [])) :=
  C8_extraction_deterministic [⟨"a", "function.name"⟩] [] [⟨"a", "function.name"⟩] []
    ReadResult.fileNotFound ReadResult.fileNotFound
    (fun _ => ([], [])) (fun _ => ([], [])) rfl rfl rfl rfl

/-- C9: the key list of the functions mapping returned by `analyze` is
exactly the one produced by the definition loop (the call loop preserves it,
never creating or removing an entry), a name is a key exactly when some
definition-query capture tagged `function.name` carries it, and a callee
capture whose current function is not a key of the mapping leaves the state
unchanged (the membership guard of line 87 silently drops it). Every entry
carries a calls list by construction of `FunctionEntry`. -/
theorem C9_functions_keys_invariant :
    ∀ defCaps callCaps : List Capture,
      ((buildStructure defCaps callCaps).functions.map Prod.fst
        = (processDefCaptures defCaps).map Prod.fst) ∧
      (∀ n : String,
        n ∈ (processDefCaptures defCaps).map Prod.fst ↔
          ∃ c ∈ defCaps, c.tag = "function.name" ∧ c.text = n) ∧
      (∀ (fns : FuncMap) (f : String) (c : Capture),
        c.tag = "function.call" ∨ c.tag = "method.name" →
        dictContains fns f = false →
        callLoopStep (fns, some f) c = (fns, some f)) := by
  intro defCaps callCaps
  refine ⟨?_, ?_, ?_⟩
  · unfold buildStructure
    exact foldl_callLoop_map_fst callCaps (processDefCaptures defCaps, none)
  · intro n
    unfold processDefCaptures
    rw [mem_foldl_defLoop_keys]
    simp
  · intro fns f c h hcont
    have h1 : c.tag ≠ "function.name" := by
      rcases h with h | h <;> simp [h]
    by_cases h3 : f = ""
    · simp [callLoopStep, h1, h, h3]
    · simp [callLoopStep, h1, h, h3, hcont]

/-- C9, witness: the invariant applied at concrete capture sequences,
including a callee capture dropped by the membership guard. -/
theorem C9_witness :
    ((buildStructure [⟨"a", "function.name"⟩] [⟨"a", "function.name"⟩, ⟨"x", "function.call"⟩]).functions.map Prod.fst
      = (processDefCaptures [⟨"a", "function.name"⟩]).map Prod.fst) ∧
    callLoopStep ([], some "g") ⟨"x", "function.call"⟩ = ([], some "g") :=
  ⟨(C9_functions_keys_invariant [⟨"a", "function.name"⟩]
      [⟨"a", "function.name"⟩, ⟨"x", "function.call"⟩]).1,
   (C9_functions_keys_invariant [] []).2.2 [] "g" ⟨"x", "function.call"⟩
     (Or.inl rfl) (by decide)⟩

/-- C10, counterexample: the renderer raises a generic exception. It is
caught inside `_render_graph` (line 178), the function completes normally,
but the message of line 179 does not echo the offending dot text — refuting
the part of the claim that any exception raised while constructing or
rendering is reported with the offending text. -/
theorem C10_counterexample :
    generate_from_dot_string SourceBehavior.ok RenderBehavior.raiseOther "bad-dot"
      = ([LogLine.renderErrorMsg], Escape.completed) ∧
    LogLine.offendingText "bad-dot" ∉ [LogLine.renderErrorMsg] := by
  exact ⟨rfl, by simp⟩

/-- C10, amended: every run of `generate_from_dot_string` completes normally
except in the single case that construction succeeded and the rendering
executable is not found, where `sys.exit(1)` raises a `SystemExit` that the
`except Exception` handler does not intercept. Exceptions raised while
constructing the graph are caught by the handler of lines 205-209 and
reported with the offending text echoed; other rendering exceptions are
caught inside `_render_graph` and reported without the offending text. -/
theorem C10_exception_flow :
    ∀ (sb : SourceBehavior) (rb : RenderBehavior) (s : String),
      ((generate_from_dot_string sb rb s).2 = Escape.systemExit ↔
        sb = SourceBehavior.ok ∧ rb = RenderBehavior.execNotFound) ∧
      (sb = SourceBehavior.raiseExc →
        generate_from_dot_string sb rb s
          = ([LogLine.dotErrorMsg, LogLine.offendingText s], Escape.completed)) ∧
      (sb = SourceBehavior.ok → rb = RenderBehavior.raiseOther →
        generate_from_dot_string sb rb s = ([LogLine.renderErrorMsg], Escape.completed)) := by
  intro sb rb s
  cases sb <;> cases rb <;>
    simp [generate_from_dot_string, render_graph_run]

/-- C10, witness: the amended theorem applied at the construction-failure
case, where the offending dot text is echoed and the call completes. -/
theorem C10_witness :
    generate_from_dot_string SourceBehavior.raiseExc RenderBehavior.success "d"
      = ([LogLine.dotErrorMsg, LogLine.offendingText "d"], Escape.completed) :=
  (C10_exception_flow SourceBehavior.raiseExc RenderBehavior.success "d").2.1 rfl

end LegacyRefactor
